import Mathlib

/-!
Verification of the cloud KMS plugin's protocol handlers.

The development shallowly embeds the plugin's core logic:
  * the standard base64 codec used on every payload exchanged with the
    backend (`encoding/base64` StdEncoding in `plugin/plugin.go` and
    `plugin/v2/plugin.go`);
  * the key-resource-name extraction regular expression of
    `plugin/v2/plugin.go` (`keyResourceRegEx` and `extractKeyName`);
  * the v2 `Status` / `Encrypt` / `Decrypt` handlers of
    `plugin/v2/plugin.go`, with the remote KMS modelled as an oracle
    and the package-level `lastKeyId` tracker threaded as explicit state;
  * the v1 `Encrypt` / `Decrypt` handlers of `plugin/plugin.go`;
  * the healthz probe handler of `plugin/healthz.go`, instrumented with
    the list of transport/backend calls it performs and the context each
    call is made under.

Bytes are `Nat` values below 256; Go strings are `String` (lists of
characters) on the wire.
-/

/-! ### Base64 (encoding/base64, StdEncoding)

`b64encode` mirrors `base64.StdEncoding.EncodeToString` on a byte list;
`b64decode` mirrors `base64.StdEncoding.DecodeString`: input must consist
of four-character quanta, `=` padding may appear only in the final
quantum (one `=` for a two-byte remainder, `==` for a one-byte
remainder); unused trailing bits are ignored, as in Go's non-strict
decoder. -/

/-- The standard base64 alphabet. -/
def b64Table : List Char :=
  "ABCDEFGHIJKLMNOPQRSTUVWXYZabcdefghijklmnopqrstuvwxyz0123456789+/".toList

/-- Character of a six-bit group. -/
def tc (n : Nat) : Char := b64Table.getD n 'A'

/-- Scan of the alphabet: position of a character, if it is in the table. -/
def dcAux : List Char → Nat → Char → Option Nat
  | [], _, _ => none
  | t :: ts, i, c => if t = c then some i else dcAux ts (i + 1) c

/-- Six-bit value of an alphabet character. -/
def dc (c : Char) : Option Nat := dcAux b64Table 0 c

/-- Encoding of a byte list, three bytes to four characters, with `=`
padding for a short final group. -/
def b64encode : List Nat → List Char
  | [] => []
  | [a] => [tc (a / 4), tc (a % 4 * 16), '=', '=']
  | [a, b] => [tc (a / 4), tc (a % 4 * 16 + b / 16), tc (b % 16 * 4), '=']
  | a :: b :: c :: rest =>
    tc (a / 4) :: tc (a % 4 * 16 + b / 16) :: tc (b % 16 * 4 + c / 64) ::
      tc (c % 64) :: b64encode rest

/-- Decoding of a base64 text, four characters to three bytes, padding
only in the final quantum. -/
def b64decode : List Char → Option (List Nat)
  | [] => some []
  | c1 :: c2 :: c3 :: c4 :: rest =>
    match dc c1, dc c2 with
    | some w, some x =>
      if c3 = '=' then
        if c4 = '=' ∧ rest = [] then some [w * 4 + x / 16] else none
      else
        match dc c3 with
        | some y =>
          if c4 = '=' then
            if rest = [] then some [w * 4 + x / 16, x % 16 * 16 + y / 4] else none
          else
            match dc c4 with
            | some z =>
              (b64decode rest).map
                (fun bs => (w * 4 + x / 16) :: (x % 16 * 16 + y / 4) ::
                  (y % 4 * 64 + z) :: bs)
            | none => none
        | none => none
    | _, _ => none
  | _ => none

/-! ### Key resource name extraction (plugin/v2/plugin.go)

`keyResourceRegEx` is
`projects\/[^/]+\/locations\/[^/]+\/keyRings\/[^/:]+` applied with
`FindString`, which returns the leftmost match, or the empty string when
there is none.  Since every character class of the pattern excludes `/`
and each subsequent literal begins with `/`, the greedy classes are
forced to consume the maximal run at each position, so the match at any
starting position is computed by the deterministic parser below. -/

/-- Class `[^/]`. -/
def nonSlash (c : Char) : Bool := c != '/'

/-- Class `[^/:]`. -/
def nonSlashColon (c : Char) : Bool := c != '/' && c != ':'

/-- Literal `projects/`. -/
def litProj : List Char := "projects/".toList

/-- Literal `/locations/`. -/
def litLoc : List Char := "/locations/".toList

/-- Literal `/keyRings/`. -/
def litRing : List Char := "/keyRings/".toList

/-- Literal `/cryptoKeys/`. -/
def litKey : List Char := "/cryptoKeys/".toList

/-- Remainder of `s` after a literal, if the literal heads it. -/
def stripPrefixL : List Char → List Char → Option (List Char)
  | [], s => some s
  | _ :: _, [] => none
  | p :: ps, c :: cs => if p = c then stripPrefixL ps cs else none

/-- Maximal nonempty run of characters of class `q`, with the rest. -/
def parseSeg (q : Char → Bool) (s : List Char) : Option (List Char × List Char) :=
  let a := s.takeWhile q
  if a.isEmpty then none else some (a, s.dropWhile q)

/-- A literal followed by a nonempty run of class `q`. -/
def parseLitSeg (lit : List Char) (q : Char → Bool) (s : List Char) :
    Option (List Char × List Char) :=
  (stripPrefixL lit s).bind (fun t => parseSeg q t)

/-- Match of `keyResourceRegEx` anchored at the start of `s`: the matched
text, when the pattern matches there. -/
def matchKeyAt (s : List Char) : Option (List Char) :=
  (parseLitSeg litProj nonSlash s).bind fun ps =>
  (parseLitSeg litLoc nonSlash ps.2).bind fun ls =>
  (parseLitSeg litRing nonSlash ls.2).bind fun rs =>
  (parseLitSeg litKey nonSlashColon rs.2).map fun ks =>
  litProj ++ ps.1 ++ litLoc ++ ls.1 ++ litRing ++ rs.1 ++ litKey ++ ks.1

/-- Leftmost match of `keyResourceRegEx` in `s` (Go `FindString`). -/
def findKeyMatch : List Char → Option (List Char)
  | [] => none
  | s@(_ :: t) =>
    match matchKeyAt s with
    | some m => some m
    | none => findKeyMatch t

/-- Go `extractKeyName`: the Cloud KMS key resource name inside a key
version resource name, or `""` when the pattern does not occur. -/
def extractKeyName (keyVersionId : String) : String :=
  match findKeyMatch keyVersionId.toList with
  | some m => String.mk m
  | none => ""

/-- A well-formed resource-name segment: nonempty, no `/`. -/
def validSeg (s : List Char) : Prop := s ≠ [] ∧ ∀ c ∈ s, nonSlash c = true

/-- A well-formed key segment: nonempty, no `/` and no `:`. -/
def validKSeg (s : List Char) : Prop := s ≠ [] ∧ ∀ c ∈ s, nonSlashColon c = true

instance (s : List Char) : Decidable (validSeg s) := by
  unfold validSeg; infer_instance

instance (s : List Char) : Decidable (validKSeg s) := by
  unfold validKSeg; infer_instance

/-- A list that begins with a character outside class `q`, or is empty. -/
def stopsClass (q : Char → Bool) (rest : List Char) : Prop :=
  rest = [] ∨ ∃ c t, rest = c :: t ∧ q c = false

/-- Base key resource name `projects/<p>/locations/<l>/keyRings/<r>/cryptoKeys/<k>`. -/
def baseName (p l r k : List Char) : List Char :=
  litProj ++ p ++ litLoc ++ l ++ litRing ++ r ++ litKey ++ k

/-- Optional `/cryptoKeyVersions/<n>` and `:<suffix>` decorations behind a
base key resource name. -/
def decorate (base : List Char) (useV : Bool) (vn : List Char)
    (useS : Bool) (suf : List Char) : List Char :=
  base ++ ((if useV then "/cryptoKeyVersions/".toList ++ vn else []) ++
    (if useS then ':' :: suf else []))

/-! ### The v2 plugin (plugin/v2/plugin.go)

The remote KMS `Encrypt` endpoint is an oracle from the key resource
name and the base64 plaintext sent to it to an outcome; an outcome is
the returned key version name together with the base64 ciphertext, or a
failure (a transport error or a deadline timeout, both of which surface
as a non-nil Go error).  The package-level `lastKeyId` tracker is
threaded as explicit state. -/

namespace V2

/-- Protocol version constant of the v2 package. -/
def apiVersion : String := "v2beta1"

/-- Healthy status constant. -/
def okStatus : String := "ok"

/-- The fixed probe plaintext, base64 of `ping`. -/
def ping : String := "cGluZw=="

/-- Unreachable-key status constant. -/
def keyNotReachable : String := "Cloud KMS key is not reachable"

/-- Outcome of a remote KMS encrypt call: success carries `resp.Name`
and `resp.Ciphertext`; `failure` and `timeout` are the two error shapes. -/
inductive BackendOutcome where
  | success (name : String) (ciphertext : String)
  | failure (msg : String)
  | timeout
  deriving DecidableEq

/-- Go `StatusResponse`. -/
structure StatusResponse where
  Version : String
  Healthz : String
  KeyId : String
  deriving DecidableEq

/-- Go v2 `EncryptResponse`: decoded ciphertext bytes and the key id. -/
structure EncryptResponse where
  Ciphertext : List Nat
  KeyId : String
  deriving DecidableEq

/-- Go `getKeyId`: the key version, with `:suffix` appended when a
suffix is configured. -/
def getKeyId (keyVersion keySuffix : String) : String :=
  if keySuffix = "" then keyVersion else keyVersion ++ ":" ++ keySuffix

/-- Go v2 `Plugin.Status`: probe-encrypts `ping` against the configured
key; on success updates the tracker from `resp.Name`, on error keeps it.
Result: ((response, error), tracker after the call). -/
def statusStep (keyURI keySuffix last : String)
    (backend : String → String → BackendOutcome) :
    (Option StatusResponse × Option String) × String :=
  match backend keyURI ping with
  | .success name _ =>
    let k := getKeyId name keySuffix
    ((some ⟨apiVersion, okStatus, k⟩, none), k)
  | .failure _ => ((some ⟨apiVersion, keyNotReachable, last⟩, none), last)
  | .timeout => ((some ⟨apiVersion, keyNotReachable, last⟩, none), last)

/-- Go v2 `Plugin.Encrypt`: sends base64 of the plaintext, decodes the
returned ciphertext, updates the tracker from `resp.Name`.
Result: ((response, error), tracker after the call). -/
def encryptStep (keyURI keySuffix last : String) (plain : List Nat)
    (backend : String → String → BackendOutcome) :
    (Option EncryptResponse × Option String) × String :=
  match backend keyURI (String.mk (b64encode plain)) with
  | .success name ct =>
    match b64decode ct.toList with
    | some cipher =>
      let k := getKeyId name keySuffix
      ((some ⟨cipher, k⟩, none), k)
    | none => ((none, some "illegal base64 data"), last)
  | .failure msg => ((none, some msg), last)
  | .timeout => ((none, some "context deadline exceeded"), last)

/-- Go v2 `Plugin.Decrypt`: routes to the configured key when the
request's `KeyId` is empty, otherwise to `extractKeyName` of it, and
always delegates to the remote decrypt.  Result: (key resource name the
backend was invoked with, decoded plaintext or failure). -/
def decryptStep (keyURI reqKeyId : String) (reqCiphertext : List Nat)
    (backend : String → String → Option String) : String × Option (List Nat) :=
  let sentCt := String.mk (b64encode reqCiphertext)
  let keyResourceName := if reqKeyId = "" then keyURI else extractKeyName reqKeyId
  match backend keyResourceName sentCt with
  | none => (keyResourceName, none)
  | some pt => (keyResourceName, b64decode pt.toList)

end V2

/-! ### The v1 plugin (plugin/plugin.go)

`Encrypt` sends base64 of the plaintext and decodes the backend's
base64 ciphertext; `Decrypt` is symmetric.  The remote endpoints are
oracles from the sent text to the returned text (`none` = error). -/

namespace V1

/-- Go v1 `Plugin.Encrypt`: base64-encode the plaintext, call the
backend, base64-decode its reply. -/
def encrypt (E : String → Option String) (plain : List Nat) : Option (List Nat) :=
  (E (String.mk (b64encode plain))).bind (fun ct => b64decode ct.toList)

/-- Go v1 `Plugin.Decrypt`: base64-encode the ciphertext, call the
backend, base64-decode its reply. -/
def decrypt (D : String → Option String) (cipher : List Nat) : Option (List Nat) :=
  (D (String.mk (b64encode cipher))).bind (fun pt => b64decode pt.toList)

end V1

/-! ### The healthz handler (plugin/healthz.go)

`HealthZ.Serve` dials the plugin's unix socket, pings the gRPC
`Version` endpoint under a context derived from the request with the
configured call timeout, checks IAM permissions, and, when the request
carries `ping-kms=true`, runs an encrypt/decrypt round trip.  The
embedding records each transport/backend call together with the context
it is made under: in the source, `testIAMPermissions` issues
`TestIamPermissions(...).Do()` with no context at all, and `pingKMS`
issues its `Decrypt` under `context.Background()`. -/

namespace Healthz

/-- The transport/backend calls a probe can make. -/
inductive CallKind where
  | dialUnix
  | versionRPC
  | testIamPermissions
  | encryptRPC
  | decryptRPC
  deriving DecidableEq

/-- The context a call is made under: the probe's deadline context, a
fresh background context, or none attached at all. -/
inductive CtxKind where
  | probeCtx
  | backgroundCtx
  | noCtx
  deriving DecidableEq

/-- Healthz configuration fields used by the handler. -/
structure Cfg where
  KeyName : String
  UnixSocketPath : String
  deriving DecidableEq

/-- The permission set the handler requires, as `sets.NewString(...).List()`
returns it (sorted). -/
def wantPermissions : List String :=
  ["cloudkms.cryptoKeyVersions.useToDecrypt", "cloudkms.cryptoKeyVersions.useToEncrypt"]

/-- Go `HealthZ.testIAMPermissions`: `none` when every wanted permission
was granted, otherwise the error text. -/
def testIAM (h : Cfg) (iamResp : Option (List String)) : Option String :=
  match iamResp with
  | none => some ("failed to test IAM Permissions on " ++ h.KeyName)
  | some got =>
    let diff := wantPermissions.filter (fun w => !(got.contains w))
    if diff.isEmpty then none
    else some ("missing " ++ String.intercalate " " diff ++
      " IAM permissions on CryptoKey:" ++ h.KeyName)

/-- Go `HealthZ.Serve`'s request handler.  Inputs are the outcomes of the
unix dial, the `Version` ping, the IAM introspection (`none` = request
error, `some got` = granted permissions), the `ping-kms` query value and
the two halves of the round-trip probe (`none` = success).  Result:
(HTTP status, body, the calls made with the context of each). -/
def serveProbe (h : Cfg) (dialErr pingErr : Option String)
    (iamResp : Option (List String)) (pingParam : String)
    (encErr decErr : Option String) :
    Nat × String × List (CallKind × CtxKind) :=
  match dialErr with
  | some e => (503, e, [(.dialUnix, .noCtx)])
  | none =>
  match pingErr with
  | some e =>
    (503, "failed to retrieve version from gRPC endpoint:" ++ h.UnixSocketPath ++
      ", error: " ++ e, [(.dialUnix, .noCtx), (.versionRPC, .probeCtx)])
  | none =>
  let callsIam : List (CallKind × CtxKind) :=
    [(.dialUnix, .noCtx), (.versionRPC, .probeCtx), (.testIamPermissions, .noCtx)]
  match testIAM h iamResp with
  | some e => (403, e, callsIam)
  | none =>
  if pingParam = "true" then
    match encErr with
    | some e => (503, "failed to ping KMS: " ++ e, callsIam ++ [(.encryptRPC, .probeCtx)])
    | none =>
    match decErr with
    | some e =>
      (503, "failed to ping KMS: " ++ e,
        callsIam ++ [(.encryptRPC, .probeCtx), (.decryptRPC, .backgroundCtx)])
    | none =>
      (200, "ok", callsIam ++ [(.encryptRPC, .probeCtx), (.decryptRPC, .backgroundCtx)])
  else (200, "ok", callsIam)

end Healthz

theorem dc_tc_lt : ∀ n < 64, dc (tc n) = some n := by decide

theorem dc_pad : dc '=' = none := by decide

theorem tc_ne_pad {n : Nat} (h : n < 64) : tc n ≠ '=' := by
  intro he
  have h1 := dc_tc_lt n h
  rw [he, dc_pad] at h1
  cases h1

theorem b64_roundtrip : ∀ l : List Nat, (∀ b ∈ l, b < 256) →
    b64decode (b64encode l) = some l := by
  intro l
  induction l using b64encode.induct with
  | case1 => intro _; rfl
  | case2 a =>
    intro h
    have ha := h a (by simp)
    have h1 := dc_tc_lt (a / 4) (by omega)
    have h2 := dc_tc_lt (a % 4 * 16) (by omega)
    simp [b64encode, b64decode, h1, h2]
    omega
  | case3 a b =>
    intro h
    have ha := h a (by simp)
    have hb := h b (by simp)
    have h1 := dc_tc_lt (a / 4) (by omega)
    have h2 := dc_tc_lt (a % 4 * 16 + b / 16) (by omega)
    have h3 := dc_tc_lt (b % 16 * 4) (by omega)
    simp [b64encode, b64decode, h1, h2, h3, tc_ne_pad (show b % 16 * 4 < 64 by omega)]
    omega
  | case4 a b c rest ih =>
    intro h
    have ha := h a (by simp)
    have hb := h b (by simp)
    have hc := h c (by simp)
    have h1 := dc_tc_lt (a / 4) (by omega)
    have h2 := dc_tc_lt (a % 4 * 16 + b / 16) (by omega)
    have h3 := dc_tc_lt (b % 16 * 4 + c / 64) (by omega)
    have h4 := dc_tc_lt (c % 64) (by omega)
    have hrest := ih (fun x hx => h x (by simp [hx]))
    simp [b64encode, b64decode, h1, h2, h3, h4, hrest,
      tc_ne_pad (show b % 16 * 4 + c / 64 < 64 by omega),
      tc_ne_pad (show c % 64 < 64 by omega)]
    omega

theorem stripPrefixL_append (p s : List Char) : stripPrefixL p (p ++ s) = some s := by
  induction p with
  | nil => rfl
  | cons c cs ih => simp [stripPrefixL, ih]

theorem takeWhile_stop (q : Char → Bool) (a : List Char) (c : Char) (b : List Char)
    (h : ∀ x ∈ a, q x = true) (hc : q c = false) :
    ((a ++ c :: b).takeWhile q = a) ∧ ((a ++ c :: b).dropWhile q = c :: b) := by
  induction a with
  | nil => simp [List.takeWhile, List.dropWhile, hc]
  | cons x xs ih =>
    have hx := h x (by simp)
    have := ih (fun y hy => h y (by simp [hy]))
    simp [List.takeWhile, List.dropWhile, hx, this.1, this.2]

theorem takeWhile_all (q : Char → Bool) (a : List Char) (h : ∀ x ∈ a, q x = true) :
    (a.takeWhile q = a) ∧ (a.dropWhile q = []) := by
  induction a with
  | nil => simp
  | cons x xs ih =>
    have hx := h x (by simp)
    have := ih (fun y hy => h y (by simp [hy]))
    simp [List.takeWhile, List.dropWhile, hx, this.1, this.2]

theorem parseLitSeg_exact (lit a rest : List Char) (q : Char → Bool)
    (ha : a ≠ []) (hall : ∀ x ∈ a, q x = true) (hstop : stopsClass q rest) :
    parseLitSeg lit q (lit ++ (a ++ rest)) = some (a, rest) := by
  unfold parseLitSeg
  rw [stripPrefixL_append]
  unfold parseSeg
  have hne : a.isEmpty = false := by cases a with | nil => exact absurd rfl ha | cons x xs => rfl
  rcases hstop with h0 | ⟨c, t, rfl, hc⟩
  · subst h0
    have := takeWhile_all q a hall
    rw [List.append_nil]
    simp only [Option.some_bind]
    rw [this.1, this.2, hne]
    rfl
  · have := takeWhile_stop q a c t hall hc
    simp only [Option.some_bind]
    rw [this.1, this.2, hne]
    rfl

theorem matchKeyAt_base (p l r k extra : List Char)
    (hp : validSeg p) (hl : validSeg l) (hr : validSeg r) (hk : validKSeg k)
    (hstop : stopsClass nonSlashColon extra) :
    matchKeyAt (baseName p l r k ++ extra) = some (baseName p l r k) := by
  have hshape : baseName p l r k ++ extra
      = litProj ++ (p ++ (litLoc ++ (l ++ (litRing ++ (r ++ (litKey ++ (k ++ extra))))))) := by
    simp [baseName, List.append_assoc]
  rw [matchKeyAt, hshape]
  rw [parseLitSeg_exact litProj p (litLoc ++ (l ++ (litRing ++ (r ++ (litKey ++ (k ++ extra))))))
    nonSlash hp.1 hp.2
    (Or.inr ⟨'/', "locations/".toList ++ (l ++ (litRing ++ (r ++ (litKey ++ (k ++ extra))))), rfl, rfl⟩)]
  simp only [Option.some_bind]
  rw [parseLitSeg_exact litLoc l (litRing ++ (r ++ (litKey ++ (k ++ extra))))
    nonSlash hl.1 hl.2
    (Or.inr ⟨'/', "keyRings/".toList ++ (r ++ (litKey ++ (k ++ extra))), rfl, rfl⟩)]
  simp only [Option.some_bind]
  rw [parseLitSeg_exact litRing r (litKey ++ (k ++ extra)) nonSlash hr.1 hr.2
    (Or.inr ⟨'/', "cryptoKeys/".toList ++ (k ++ extra), rfl, rfl⟩)]
  simp only [Option.some_bind]
  rw [parseLitSeg_exact litKey k extra nonSlashColon hk.1 hk.2 hstop]
  simp [baseName]

theorem matchKeyAt_nil : matchKeyAt ([] : List Char) = none := rfl

theorem findKeyMatch_of_matchAt (s m : List Char) (h : matchKeyAt s = some m) :
    findKeyMatch s = some m := by
  cases s with
  | nil => rw [matchKeyAt_nil] at h; cases h
  | cons c t => unfold findKeyMatch; rw [h]

theorem findKeyMatch_none (s : List Char)
    (h : ∀ i < s.length, matchKeyAt (s.drop i) = none) : findKeyMatch s = none := by
  induction s with
  | nil => rfl
  | cons c t ih =>
    unfold findKeyMatch
    have h0 := h 0 (by simp)
    rw [show (c :: t).drop 0 = c :: t from rfl] at h0
    rw [h0]
    exact ih (fun i hi => h (i + 1) (by simpa using hi))

/-- The decorations behind a base name stop the key-segment class. -/
theorem decorate_stops (vn suf : List Char) (useV useS : Bool) :
    stopsClass nonSlashColon
      ((if useV then "/cryptoKeyVersions/".toList ++ vn else []) ++
        (if useS then ':' :: suf else [])) := by
  cases useV with
  | true => exact Or.inr ⟨'/', _, rfl, rfl⟩
  | false =>
    cases useS with
    | true => exact Or.inr ⟨':', _, rfl, rfl⟩
    | false => exact Or.inl rfl

theorem extract_decorated (p l r k vn suf : List Char) (useV useS : Bool)
    (hp : validSeg p) (hl : validSeg l) (hr : validSeg r) (hk : validKSeg k) :
    extractKeyName (String.mk (decorate (baseName p l r k) useV vn useS suf))
      = String.mk (baseName p l r k) := by
  unfold extractKeyName
  rw [show (String.mk (decorate (baseName p l r k) useV vn useS suf)).toList
      = decorate (baseName p l r k) useV vn useS suf from rfl]
  unfold decorate
  rw [findKeyMatch_of_matchAt _ _ (matchKeyAt_base p l r k _ hp hl hr hk
    (decorate_stops vn suf useV useS))]

theorem extract_base (p l r k : List Char)
    (hp : validSeg p) (hl : validSeg l) (hr : validSeg r) (hk : validKSeg k) :
    extractKeyName (String.mk (baseName p l r k)) = String.mk (baseName p l r k) := by
  unfold extractKeyName
  rw [show (String.mk (baseName p l r k)).toList = baseName p l r k from rfl]
  have := matchKeyAt_base p l r k [] hp hl hr hk (Or.inl rfl)
  rw [List.append_nil] at this
  rw [findKeyMatch_of_matchAt _ _ this]

/-- C3: base-key extraction is idempotent: extracting from a well-formed,
optionally `/cryptoKeyVersions/<n>`- and/or `:<suffix>`-decorated resource
identifier yields the base key name, extracting again from the result
yields that same base key name, and a malformed identifier containing no
segment matching the resource-name grammar extracts to the empty string. -/
theorem extractKeyName_idem (p l r k vn suf : List Char) (useV useS : Bool) (s : String)
    (hp : validSeg p) (hl : validSeg l) (hr : validSeg r) (hk : validKSeg k)
    (hmal : ∀ i < s.toList.length, matchKeyAt (s.toList.drop i) = none) :
    extractKeyName (String.mk (decorate (baseName p l r k) useV vn useS suf))
        = String.mk (baseName p l r k)
    ∧ extractKeyName (extractKeyName (String.mk (decorate (baseName p l r k) useV vn useS suf)))
        = extractKeyName (String.mk (decorate (baseName p l r k) useV vn useS suf))
    ∧ extractKeyName s = "" := by
  have h1 := extract_decorated p l r k vn suf useV useS hp hl hr hk
  refine ⟨h1, ?_, ?_⟩
  · rw [h1, extract_base p l r k hp hl hr hk]
  · unfold extractKeyName
    rw [findKeyMatch_none s.toList hmal]

/-- C3 witness: a concrete decorated identifier extracts to its base key
name, re-extraction is stable, and a concrete malformed identifier
extracts to the empty string. -/
theorem extractKeyName_idem_w :
    extractKeyName (String.mk (decorate (baseName
        "p1".toList "l1".toList "r1".toList "k1".toList) true "3".toList true "v2".toList))
      = String.mk (baseName "p1".toList "l1".toList "r1".toList "k1".toList)
    ∧ extractKeyName (extractKeyName (String.mk (decorate (baseName
        "p1".toList "l1".toList "r1".toList "k1".toList) true "3".toList true "v2".toList)))
      = extractKeyName (String.mk (decorate (baseName
        "p1".toList "l1".toList "r1".toList "k1".toList) true "3".toList true "v2".toList))
    ∧ extractKeyName "not a resource name" = "" :=
  extractKeyName_idem "p1".toList "l1".toList "r1".toList "k1".toList
    "3".toList "v2".toList true true "not a resource name"
    (by decide) (by decide) (by decide) (by decide) (by decide)

/-- Unfolding of `V2.decryptStep`: the key routing and the delegation. -/
theorem decryptStep_eq (keyURI kid : String) (ct : List Nat)
    (B : String → String → Option String) :
    V2.decryptStep keyURI kid ct B
      = ((if kid = "" then keyURI else extractKeyName kid),
         (B (if kid = "" then keyURI else extractKeyName kid) (String.mk (b64encode ct))).bind
           (fun pt => b64decode pt.toList)) := by
  unfold V2.decryptStep
  cases hB : B (if kid = "" then keyURI else extractKeyName kid) (String.mk (b64encode ct)) with
  | none => simp [hB]
  | some pt => simp [hB]

/-- C2: a v2 Decrypt call with an empty keyId delegates to the backend
with the plugin's configured key; one whose keyId is a well-formed,
optionally decorated resource identifier delegates with exactly the base
key resource name, decorations discarded; neither is rejected locally. -/
theorem decrypt_key_routing (keyURI : String) (ct : List Nat)
    (B : String → String → Option String)
    (p l r k vn suf : List Char) (useV useS : Bool)
    (hp : validSeg p) (hl : validSeg l) (hr : validSeg r) (hk : validKSeg k) :
    V2.decryptStep keyURI "" ct B
      = (keyURI, (B keyURI (String.mk (b64encode ct))).bind (fun pt => b64decode pt.toList))
    ∧ V2.decryptStep keyURI (String.mk (decorate (baseName p l r k) useV vn useS suf)) ct B
      = (String.mk (baseName p l r k),
         (B (String.mk (baseName p l r k)) (String.mk (b64encode ct))).bind
           (fun pt => b64decode pt.toList)) := by
  constructor
  · rw [decryptStep_eq, if_pos rfl]
  · have hne : String.mk (decorate (baseName p l r k) useV vn useS suf) ≠ "" := by
      intro h
      have hdata : decorate (baseName p l r k) useV vn useS suf = [] := congrArg String.data h
      rw [decorate, baseName] at hdata
      simp [List.append_eq_nil] at hdata
      exact absurd hdata.1 (by decide)
    rw [decryptStep_eq, if_neg hne, extract_decorated p l r k vn suf useV useS hp hl hr hk]

/-- C2 witness: routing at concrete inputs, with a recording backend. -/
theorem decrypt_key_routing_w :
    V2.decryptStep "projects/d/locations/g/keyRings/h/cryptoKeys/j" "" [7]
        (fun n _ => some n)
      = ("projects/d/locations/g/keyRings/h/cryptoKeys/j",
         (some "projects/d/locations/g/keyRings/h/cryptoKeys/j").bind
           (fun pt => b64decode pt.toList))
    ∧ V2.decryptStep "projects/d/locations/g/keyRings/h/cryptoKeys/j"
        (String.mk (decorate (baseName "p1".toList "l1".toList "r1".toList "k1".toList)
          true "3".toList true "v2".toList)) [7] (fun n _ => some n)
      = (String.mk (baseName "p1".toList "l1".toList "r1".toList "k1".toList),
         (some (String.mk (baseName "p1".toList "l1".toList "r1".toList "k1".toList))).bind
           (fun pt => b64decode pt.toList)) :=
  decrypt_key_routing "projects/d/locations/g/keyRings/h/cryptoKeys/j" [7]
    (fun n _ => some n) "p1".toList "l1".toList "r1".toList "k1".toList
    "3".toList "v2".toList true true (by decide) (by decide) (by decide) (by decide)

/-- C10: a v2 Decrypt call whose keyId is non-empty but contains no
segment matching the resource-name grammar delegates to the backend with
the empty string as the key resource name, neither falling back to the
configured key nor rejecting the request locally. -/
theorem decrypt_unmatched_key (keyURI kid : String) (ct : List Nat)
    (B : String → String → Option String)
    (hkid : kid ≠ "")
    (hmal : ∀ i < kid.toList.length, matchKeyAt (kid.toList.drop i) = none) :
    V2.decryptStep keyURI kid ct B
      = ("", (B "" (String.mk (b64encode ct))).bind (fun pt => b64decode pt.toList))
    ∧ (keyURI ≠ "" → (V2.decryptStep keyURI kid ct B).1 ≠ keyURI) := by
  have hext : extractKeyName kid = "" := by
    unfold extractKeyName
    rw [findKeyMatch_none kid.toList hmal]
  have h1 : V2.decryptStep keyURI kid ct B
      = ("", (B "" (String.mk (b64encode ct))).bind (fun pt => b64decode pt.toList)) := by
    rw [decryptStep_eq, if_neg hkid, hext]
  refine ⟨h1, fun hu => ?_⟩
  rw [h1]
  exact fun h => hu h.symm

/-- C10 witness: a concrete junk keyId routes the backend call to the
empty key resource name. -/
theorem decrypt_unmatched_key_w :
    V2.decryptStep "projects/d/locations/g/keyRings/h/cryptoKeys/j" "junk-key-id" [7]
        (fun _ _ => none)
      = ("", (none.bind (fun pt => b64decode (String.toList pt))))
    ∧ ("projects/d/locations/g/keyRings/h/cryptoKeys/j" ≠ "" →
        (V2.decryptStep "projects/d/locations/g/keyRings/h/cryptoKeys/j" "junk-key-id" [7]
          (fun _ _ => none)).1 ≠ "projects/d/locations/g/keyRings/h/cryptoKeys/j") :=
  decrypt_unmatched_key "projects/d/locations/g/keyRings/h/cryptoKeys/j" "junk-key-id" [7]
    (fun _ _ => none) (by decide) (by decide)

/-- C1: a v2 Status probe that succeeds sets the tracker to the
suffix-decorated key version the backend returned and reports healthy
with that identifier; a probe that fails leaves the tracker unchanged,
reports the key unreachable, carries the tracker's previous value as the
response KeyId, and in particular never turns a non-empty tracker value
into an empty one. -/
theorem status_tracker_update (keyURI keySuffix last : String)
    (backend : String → String → V2.BackendOutcome) :
    (∀ name ct, backend keyURI V2.ping = .success name ct →
      V2.statusStep keyURI keySuffix last backend
        = ((some ⟨V2.apiVersion, V2.okStatus, V2.getKeyId name keySuffix⟩, none),
           V2.getKeyId name keySuffix))
    ∧ (∀ msg, backend keyURI V2.ping = .failure msg →
      V2.statusStep keyURI keySuffix last backend
        = ((some ⟨V2.apiVersion, V2.keyNotReachable, last⟩, none), last))
    ∧ (backend keyURI V2.ping = .timeout →
      V2.statusStep keyURI keySuffix last backend
        = ((some ⟨V2.apiVersion, V2.keyNotReachable, last⟩, none), last))
    ∧ (last ≠ "" → (∀ name ct, backend keyURI V2.ping ≠ .success name ct) →
      (V2.statusStep keyURI keySuffix last backend).2 = last
      ∧ ∃ resp, (V2.statusStep keyURI keySuffix last backend).1.1 = some resp
          ∧ resp.KeyId = last ∧ resp.KeyId ≠ "") := by
  refine ⟨?_, ?_, ?_, ?_⟩
  · intro name ct h
    simp [V2.statusStep, h]
  · intro msg h
    simp [V2.statusStep, h]
  · intro h
    simp [V2.statusStep, h]
  · intro hlast hnosucc
    cases h : backend keyURI V2.ping with
    | success name ct => exact absurd h (hnosucc name ct)
    | failure msg =>
      refine ⟨by simp [V2.statusStep, h], ⟨V2.apiVersion, V2.keyNotReachable, last⟩,
        by simp [V2.statusStep, h], rfl, hlast⟩
    | timeout =>
      refine ⟨by simp [V2.statusStep, h], ⟨V2.apiVersion, V2.keyNotReachable, last⟩,
        by simp [V2.statusStep, h], rfl, hlast⟩

/-- C9: a v2 Status call returns a non-nil response and a nil error for
every backend outcome; backend failure surfaces only in the response. -/
theorem status_total (keyURI keySuffix last : String)
    (backend : String → String → V2.BackendOutcome) :
    ((V2.statusStep keyURI keySuffix last backend).1.1).isSome = true
    ∧ (V2.statusStep keyURI keySuffix last backend).1.2 = none := by
  cases h : backend keyURI V2.ping <;> simp [V2.statusStep, h]

/-- C4: a successful v2 Encrypt responds with the backend-returned key
version name decorated with the configured suffix (verbatim when the
suffix is empty) and sets the tracker to that same value. -/
theorem encrypt_keyId_suffix (keyURI keySuffix last : String) (plain : List Nat)
    (backend : String → String → V2.BackendOutcome) (name ct : String) (cipher : List Nat)
    (hb : backend keyURI (String.mk (b64encode plain)) = .success name ct)
    (hct : b64decode ct.toList = some cipher) :
    V2.encryptStep keyURI keySuffix last plain backend
      = ((some ⟨cipher, V2.getKeyId name keySuffix⟩, none), V2.getKeyId name keySuffix)
    ∧ (keySuffix ≠ "" → V2.getKeyId name keySuffix = name ++ ":" ++ keySuffix)
    ∧ (keySuffix = "" → V2.getKeyId name keySuffix = name) := by
  have hct' : b64decode ct.data = some cipher := hct
  refine ⟨by simp [V2.encryptStep, hb, hct'], fun h => ?_, fun h => ?_⟩
  · rw [V2.getKeyId, if_neg h]
  · rw [V2.getKeyId, if_pos h]

/-- C4 witness: a concrete successful Encrypt with suffix `v2` responds
with `<version>:v2` and stores it in the tracker. -/
theorem encrypt_keyId_suffix_w :
    V2.encryptStep "k" "v2" "" [1, 2, 3]
        (fun _ _ => .success "projects/x/cryptoKeyVersions/1" "AQID")
      = ((some ⟨[1, 2, 3], V2.getKeyId "projects/x/cryptoKeyVersions/1" "v2"⟩, none),
         V2.getKeyId "projects/x/cryptoKeyVersions/1" "v2")
    ∧ ("v2" ≠ "" → V2.getKeyId "projects/x/cryptoKeyVersions/1" "v2"
        = "projects/x/cryptoKeyVersions/1" ++ ":" ++ "v2")
    ∧ ("v2" = "" → V2.getKeyId "projects/x/cryptoKeyVersions/1" "v2"
        = "projects/x/cryptoKeyVersions/1") :=
  encrypt_keyId_suffix "k" "v2" "" [1, 2, 3]
    (fun _ _ => .success "projects/x/cryptoKeyVersions/1" "AQID")
    "projects/x/cryptoKeyVersions/1" "AQID" [1, 2, 3] rfl (by decide)

/-- C7: the v1 round trip recovers every byte sequence: when the backend
encrypt succeeds on the base64-encoded plaintext, returns a base64 text,
and the backend decrypt inverts it on the exchanged texts, Decrypt of the
ciphertext Encrypt returned is exactly the original plaintext. -/
theorem v1_roundtrip (E D : String → Option String) (p m : List Nat) (c : String)
    (hbytes : ∀ b ∈ p, b < 256)
    (hE : E (String.mk (b64encode p)) = some c)
    (hdec : b64decode c.toList = some m)
    (hcanon : String.mk (b64encode m) = c)
    (hD : D c = some (String.mk (b64encode p))) :
    (V1.encrypt E p).bind (V1.decrypt D) = some p := by
  unfold V1.encrypt V1.decrypt
  rw [hE]
  simp only [Option.some_bind]
  rw [hdec]
  simp only [Option.some_bind]
  rw [hcanon, hD]
  simp only [Option.some_bind]
  rw [show (String.mk (b64encode p)).toList = b64encode p from rfl]
  exact b64_roundtrip p hbytes

/-- C7 witness: the round trip at a concrete plaintext, with an identity
backend on the exchanged texts. -/
theorem v1_roundtrip_w :
    (V1.encrypt (fun s => some s) [104, 105]).bind (V1.decrypt (fun s => some s))
      = some [104, 105] :=
  v1_roundtrip (fun s => some s) (fun s => some s) [104, 105] [104, 105]
    (String.mk (b64encode [104, 105])) (by decide) rfl (by decide) rfl rfl

/-- C5: the healthz handler checks transport reachability, then
authorization, then (only on `ping-kms=true`) the deep round trip,
short-circuiting on the first failure: 200 with body `ok` when every
performed check succeeds, 403 on an authorization failure — with the
deep probe then never attempted — and 503 on a reachability or deep
probe failure. -/
theorem healthz_check_order (h : Healthz.Cfg) (dialErr pingErr : Option String)
    (iamResp : Option (List String)) (pingParam : String) (encErr decErr : Option String) :
    (∀ e, dialErr = some e →
      Healthz.serveProbe h dialErr pingErr iamResp pingParam encErr decErr
        = (503, e, [(.dialUnix, .noCtx)]))
    ∧ (∀ e, dialErr = none → pingErr = some e →
      (Healthz.serveProbe h dialErr pingErr iamResp pingParam encErr decErr).1 = 503
      ∧ (Healthz.serveProbe h dialErr pingErr iamResp pingParam encErr decErr).2.2
        = [(.dialUnix, .noCtx), (.versionRPC, .probeCtx)])
    ∧ (∀ e, dialErr = none → pingErr = none → Healthz.testIAM h iamResp = some e →
      Healthz.serveProbe h dialErr pingErr iamResp pingParam encErr decErr
        = (403, e, [(.dialUnix, .noCtx), (.versionRPC, .probeCtx),
            (.testIamPermissions, .noCtx)])
      ∧ ∀ cx, (Healthz.CallKind.encryptRPC, cx)
          ∉ (Healthz.serveProbe h dialErr pingErr iamResp pingParam encErr decErr).2.2
        ∧ (Healthz.CallKind.decryptRPC, cx)
          ∉ (Healthz.serveProbe h dialErr pingErr iamResp pingParam encErr decErr).2.2)
    ∧ (dialErr = none → pingErr = none → Healthz.testIAM h iamResp = none →
        pingParam = "true" → encErr = none → decErr = none →
      Healthz.serveProbe h dialErr pingErr iamResp pingParam encErr decErr
        = (200, "ok", [(.dialUnix, .noCtx), (.versionRPC, .probeCtx),
            (.testIamPermissions, .noCtx), (.encryptRPC, .probeCtx),
            (.decryptRPC, .backgroundCtx)]))
    ∧ (dialErr = none → pingErr = none → Healthz.testIAM h iamResp = none →
        pingParam ≠ "true" →
      Healthz.serveProbe h dialErr pingErr iamResp pingParam encErr decErr
        = (200, "ok", [(.dialUnix, .noCtx), (.versionRPC, .probeCtx),
            (.testIamPermissions, .noCtx)]))
    ∧ (dialErr = none → pingErr = none → Healthz.testIAM h iamResp = none →
        pingParam = "true" → (encErr ≠ none ∨ decErr ≠ none) →
      (Healthz.serveProbe h dialErr pingErr iamResp pingParam encErr decErr).1 = 503) := by
  refine ⟨?_, ?_, ?_, ?_, ?_, ?_⟩
  · intro e he
    simp [Healthz.serveProbe, he]
  · intro e hd hp
    subst hd hp
    exact ⟨rfl, rfl⟩
  · intro e hd hp hiam
    subst hd hp
    refine ⟨by simp [Healthz.serveProbe, hiam], fun cx => ?_⟩
    constructor <;> simp [Healthz.serveProbe, hiam]
  · intro hd hp hiam hq he hdc
    subst hd hp he hdc
    simp [Healthz.serveProbe, hiam, hq]
  · intro hd hp hiam hq
    subst hd hp
    simp [Healthz.serveProbe, hiam, hq]
  · intro hd hp hiam hq hfail
    subst hd hp hq
    rcases hfail with hf | hf
    · cases henc : encErr with
      | none => cases hdc : decErr with
        | none => rw [henc] at hf; exact absurd rfl hf
        | some e => simp [Healthz.serveProbe, hiam, henc, hdc]
      | some e => simp [Healthz.serveProbe, hiam, henc]
    · cases henc : encErr with
      | none => cases hdc : decErr with
        | none => rw [hdc] at hf; exact absurd rfl hf
        | some e => simp [Healthz.serveProbe, hiam, henc, hdc]
      | some e => simp [Healthz.serveProbe, hiam, henc]

/-- C6 evidence: on a fully successful probe with `ping-kms=true`, the
permission introspection is made with no context attached and the deep
probe's decrypt under a background context, so not every backend or
transport call of the probe runs under the probe's deadline context. -/
theorem healthz_ctx_bug :
    (Healthz.CallKind.testIamPermissions, Healthz.CtxKind.noCtx)
      ∈ (Healthz.serveProbe ⟨"k", "s"⟩ none none (some Healthz.wantPermissions)
          "true" none none).2.2
    ∧ (Healthz.CallKind.decryptRPC, Healthz.CtxKind.backgroundCtx)
      ∈ (Healthz.serveProbe ⟨"k", "s"⟩ none none (some Healthz.wantPermissions)
          "true" none none).2.2
    ∧ ¬ (∀ cc ∈ (Healthz.serveProbe ⟨"k", "s"⟩ none none (some Healthz.wantPermissions)
          "true" none none).2.2,
        cc.1 = Healthz.CallKind.dialUnix ∨ cc.2 = Healthz.CtxKind.probeCtx) := by
  decide
